import Mathlib

/-
Formal model of the routing fuzz harness (fuzz/src/router.rs).

The harness reads an untrusted byte stream through a bounds-checked cursor,
replays graph-mutation opcodes, issues route queries, and validates every
returned path against three competing policy sources.  External collaborators
(message decoders, the network graph, the router, the pubkey parser) are
modelled as deterministic oracle functions; everything the harness itself
computes is translated directly from the source.  Machine integers are
modelled as Nat: every arithmetic operation performed by the harness
(big-endian decoding of 2/4/8-byte fields, fee recomputation
base + rate * total / 1_000_000 on u64) stays far below the u64 range on the
values the router hands back, and the harness performs no wrapping arithmetic.
-/

namespace RouterFuzz

/-- Big-endian decode of a 2-byte slice, as slice_to_be16 in the source. -/
def slice_to_be16 (v : List Nat) : Nat :=
  (v.getD 0 0) <<< 8 ||| (v.getD 1 0)

/-- Big-endian decode of a 4-byte slice, as slice_to_be32 in the source. -/
def slice_to_be32 (v : List Nat) : Nat :=
  (v.getD 0 0) <<< 24 ||| (v.getD 1 0) <<< 16 ||| (v.getD 2 0) <<< 8 ||| (v.getD 3 0)

/-- Big-endian decode of an 8-byte slice, as slice_to_be64 in the source. -/
def slice_to_be64 (v : List Nat) : Nat :=
  (v.getD 0 0) <<< 56 ||| (v.getD 1 0) <<< 48 ||| (v.getD 2 0) <<< 40 |||
  (v.getD 3 0) <<< 32 ||| (v.getD 4 0) <<< 24 ||| (v.getD 5 0) <<< 16 |||
  (v.getD 6 0) <<< 8 ||| (v.getD 7 0)

/-- The input cursor: the full byte buffer plus a single read offset.  The
atomic counter of the source is accessed strictly sequentially, so it is
modelled as a plain field. -/
structure InputData where
  data : List Nat
  readPos : Nat
deriving DecidableEq

/-- InputData::get_slice.  The offset is advanced first (fetch_add), then the
bounds check runs: on insufficiency the call returns none with the offset
already moved past the end of the buffer. -/
def InputData.getSlice (s : InputData) (len : Nat) : Option (List Nat) × InputData :=
  let oldPos := s.readPos
  let s2 : InputData := { s with readPos := oldPos + len }
  if s.data.length < oldPos + len then (none, s2)
  else (some ((s.data.drop oldPos).take len), s2)

/-- InputData::get_slice_nonadvancing: same bounds check, offset untouched
(the source takes the receiver by shared reference and only loads the
counter; the returned state is literally the input state). -/
def InputData.getSliceNonadvancing (s : InputData) (len : Nat) :
    Option (List Nat) × InputData :=
  if s.data.length < s.readPos + len then (none, s)
  else (some ((s.data.drop s.readPos).take len), s)

/-- Result of the chain-access oracle, chain::Access::get_utxo. -/
inductive UtxoResult
  | errUnknownChain
  | errUnknownTx
  | okOut (x : Nat)
deriving DecidableEq

/-- FuzzChainSource::get_utxo: two bytes are pulled from the shared cursor;
first byte 0 means UnknownChain, 1 means UnknownTx, anything else yields a
synthetic output scripted with the second byte; a short read yields
UnknownTx (with the cursor already advanced past the end). -/
def getUtxo (s : InputData) : UtxoResult × InputData :=
  match s.getSlice 2 with
  | (some (b0 :: b1 :: _), s2) =>
    (if b0 = 0 then .errUnknownChain else if b0 = 1 then .errUnknownTx else .okOut b1, s2)
  | (some _, s2) => (.errUnknownTx, s2)
  | (none, s2) => (.errUnknownTx, s2)

/-- RoutingFees: base fee plus proportional-millionths rate. -/
structure RoutingFees where
  base_msat : Nat
  proportional_millionths : Nat
deriving DecidableEq

/-- One hop of a returned path: the fields of RouteHop the validator reads. -/
structure RouteHop where
  short_channel_id : Nat
  fee_msat : Nat
  cltv_expiry_delta : Nat
deriving DecidableEq

/-- The fields of ChannelDetails the harness synthesizes and the validator
reads for first-hop entries. -/
structure ChannelDetails where
  short_channel_id : Option Nat
  remote_network_id : Nat
  channel_value_satoshis : Nat
  inbound_capacity_msat : Nat
  outbound_capacity_msat : Nat
deriving DecidableEq

/-- A last-hop routing hint, as RouteHint in the source. -/
structure RouteHint where
  src_node_id : Nat
  short_channel_id : Nat
  fees : RoutingFees
  cltv_expiry_delta : Nat
  htlc_minimum_msat : Option Nat
  htlc_maximum_msat : Option Nat
deriving DecidableEq

/-- msgs::OptionalField. -/
inductive OptionalField (α : Type)
  | Absent
  | Present (v : α)
deriving DecidableEq

/-- The fields of msgs::UnsignedChannelUpdate the harness reads. -/
structure UnsignedChannelUpdate where
  short_channel_id : Nat
  flags : Nat
  cltv_expiry_delta : Nat
  htlc_minimum_msat : Nat
  htlc_maximum_msat : OptionalField Nat
  fee_base_msat : Nat
  fee_proportional_millionths : Nat
deriving DecidableEq

/-- OptionalField to Option, as the match in the validator. -/
def optField : OptionalField Nat → Option Nat
  | .Absent => none
  | .Present v => some v

/-- The channel_limits HashMap: most recently accepted update per
(short_channel_id, direction) key, modelled as an association list with at
most one entry per key. -/
def ChannelLimits := List ((Nat × Bool) × UnsignedChannelUpdate)

instance : DecidableEq ChannelLimits := by
  unfold ChannelLimits
  infer_instance

/-- HashMap::get on the channel_limits table. -/
def lookupLimit (m : ChannelLimits) (k : Nat × Bool) : Option UnsignedChannelUpdate :=
  (m.find? (fun e => decide (e.1 = k))).map (fun e => e.2)

/-- HashMap::insert on the channel_limits table: replaces any existing entry
for the key. -/
def insertLimit (m : ChannelLimits) (k : Nat × Bool) (v : UnsignedChannelUpdate) :
    ChannelLimits :=
  (k, v) :: m.filter (fun e => !decide (e.1 = k))

/-- HashMap::remove on the channel_limits table. -/
def removeLimit (m : ChannelLimits) (k : Nat × Bool) : ChannelLimits :=
  m.filter (fun e => !decide (e.1 = k))

/-- The query context the validator consults: the synthesized first hops, the
last-hop hints, and the channel-policy table at query time. -/
structure QueryCtx where
  first_hops : Option (List ChannelDetails)
  last_hops : List RouteHint
  limits : ChannelLimits
deriving DecidableEq

/-- The first-hop branch of the find_chan_loop: only at backward pair index 0,
and only when a synthesized entry's channel id equals the hop's channel id
(first match in list order, as the source's for loop breaks). -/
def firstHopMatch (ctx : QueryCtx) (idx : Nat) (hop : RouteHop) : Option ChannelDetails :=
  if idx = 0 then
    match ctx.first_hops with
    | some hops => hops.find? (fun fh => decide (fh.short_channel_id = some hop.short_channel_id))
    | none => none
  else none

/-- The last-hop branch of the find_chan_loop: only at the last backward pair
(index path.len() - 2), first hint whose channel id matches. -/
def lastHopMatch (ctx : QueryCtx) (path : List RouteHop) (idx : Nat) (hop : RouteHop) :
    Option RouteHint :=
  if idx = path.length - 2 then
    ctx.last_hops.find? (fun lh => decide (lh.short_channel_id = hop.short_channel_id))
  else none

/-- Outcome of the find_chan_loop for one hop pair. -/
inductive Resolved
  /-- break find_chan_loop with (min, max, expiry, fees). -/
  | found (mn : Option Nat) (mx : Option Nat) (expiry : Nat) (fees : RoutingFees)
  /-- continue path_l: both directions of the channel have table entries. -/
  | abandonPath
  /-- panic!(): no policy source knows the channel. -/
  | noPolicy
deriving DecidableEq

/-- Whether resolution produced a policy. -/
def Resolved.isFound : Resolved → Bool
  | .found _ _ _ _ => true
  | _ => false

/-- The find_chan_loop of the validator: first-hop data, then last-hop hints,
then the channel-policy table.  A first-hop match yields no minimum, the
entry's outbound_capacity_msat as the maximum, expiry 0 and zero fees; a
last-hop match yields the hint's bounds, expiry and fees; otherwise the two
directional table entries decide: both present abandons the path, neither is
a fatal inconsistency, a single one supplies the policy. -/
def findChan (ctx : QueryCtx) (path : List RouteHop) (idx : Nat) (hop : RouteHop) : Resolved :=
  match firstHopMatch ctx idx hop with
  | some fh => .found none (some fh.outbound_capacity_msat) 0 ⟨0, 0⟩
  | none =>
    match lastHopMatch ctx path idx hop with
    | some lh => .found lh.htlc_minimum_msat lh.htlc_maximum_msat lh.cltv_expiry_delta lh.fees
    | none =>
      match lookupLimit ctx.limits (hop.short_channel_id, false),
            lookupLimit ctx.limits (hop.short_channel_id, true) with
      | some _, some _ => .abandonPath
      | some u, none =>
        .found (some u.htlc_minimum_msat) (optField u.htlc_maximum_msat)
          u.cltv_expiry_delta ⟨u.fee_base_msat, u.fee_proportional_millionths⟩
      | none, some u =>
        .found (some u.htlc_minimum_msat) (optField u.htlc_maximum_msat)
          u.cltv_expiry_delta ⟨u.fee_base_msat, u.fee_proportional_millionths⟩
      | none, none => .noPolicy

/-- The four per-pair assertions of the validator, evaluated at running total
t: path_total <= max and >= min when present, prev_hop.fee >= base_fee,
prev_hop.fee == base_fee + rate * path_total / 1_000_000 (floor division),
and prev_hop.cltv_expiry_delta == expiry. -/
def pairChecksB (mn mx : Option Nat) (expiry : Nat) (fees : RoutingFees)
    (prev : RouteHop) (t : Nat) : Bool :=
  (match mx with | some v => decide (t ≤ v) | none => true) &&
  (match mn with | some v => decide (v ≤ t) | none => true) &&
  decide (fees.base_msat ≤ prev.fee_msat) &&
  (prev.fee_msat == fees.base_msat + fees.proportional_millionths * t / 1000000) &&
  (prev.cltv_expiry_delta == expiry)

/-- Outcome of the backward walk over one path. -/
inductive PathOutcome
  | ok
  | abandoned
  | panicked
deriving DecidableEq

/-- The enumerated hop pairs of a path: path.windows(2).enumerate(), so
element j is (j, path[j], path[j+1]). -/
def enumPairs : List RouteHop → List (Nat × RouteHop × RouteHop)
  | a :: b :: rest =>
    (0, a, b) :: (enumPairs (b :: rest)).map (fun e => (e.1 + 1, e.2.1, e.2.2))
  | _ => []

/-- The backward walk proper: consumes the (already reversed) enumerated pair
list, carrying path_total; each resolved pair must pass the assertions, after
which the pair's prev-hop fee is accumulated; a both-directions ambiguity
abandons the path, a missing policy or a failed assertion is fatal. -/
def walkAux (ctx : QueryCtx) (path : List RouteHop) :
    List (Nat × RouteHop × RouteHop) → Nat → PathOutcome
  | [], _ => .ok
  | (idx, prev, hop) :: rest, t =>
    match findChan ctx path idx hop with
    | .abandonPath => .abandoned
    | .noPolicy => .panicked
    | .found mn mx expiry fees =>
      if pairChecksB mn mx expiry fees prev t then
        walkAux ctx path rest (t + prev.fee_msat)
      else .panicked

/-- The backward walk over a whole path, started from terminal fee t0:
for (idx, ...) in path.windows(2).enumerate().rev(). -/
def walkPath (ctx : QueryCtx) (path : List RouteHop) (t0 : Nat) : PathOutcome :=
  walkAux ctx path (enumPairs path).reverse t0

/-- Outcome of validating a whole route. -/
inductive RouteOutcome
  | ok
  | panicked
deriving DecidableEq

/-- The per-path loop of the validator: for each path, the terminal hop fee is
added to the running sent total and the terminal cltv is asserted equal to
the requested budget; when the requested value is nonzero the backward walk
runs (a panicking walk is fatal, an abandoned one just moves on); after all
paths the sent total must equal the requested value exactly. -/
def validateGo (ctx : QueryCtx) (value cltv : Nat) :
    List (List RouteHop) → Nat → RouteOutcome
  | [], sent => if sent == value then .ok else .panicked
  | p :: rest, sent =>
    match p.getLast? with
    | none => .panicked
    | some lastHop =>
      if lastHop.cltv_expiry_delta == cltv then
        if value == 0 then validateGo ctx value cltv rest (sent + lastHop.fee_msat)
        else
          match walkPath ctx p lastHop.fee_msat with
          | .panicked => .panicked
          | _ => validateGo ctx value cltv rest (sent + lastHop.fee_msat)
      else .panicked

/-- Validation of one successful RouteResult against requested value and cltv. -/
def validateRoute (ctx : QueryCtx) (paths : List (List RouteHop)) (value cltv : Nat) :
    RouteOutcome :=
  validateGo ctx value cltv paths 0

/-- Sum of terminal-hop fees over all paths of a route (0 for an empty path,
on which the validator panics before ever reaching the final sum check). -/
def sumTerminal (paths : List (List RouteHop)) : Nat :=
  (paths.map (fun p => match p.getLast? with | some h => h.fee_msat | none => 0)).sum

/-- Sum of the prev-hop fees of the pairs with index strictly greater than j:
exactly the fees the backward walk accumulates before reaching pair j. -/
def idxFees (l : List (Nat × RouteHop × RouteHop)) (j : Nat) : Nat :=
  ((l.filter (fun e => decide (j < e.1))).map (fun e => e.2.1.fee_msat)).sum

/-- The running path_total in force when the backward walk reaches pair j of a
path, starting from terminal fee t0. -/
def totalAt (path : List RouteHop) (t0 j : Nat) : Nat :=
  t0 + idxFees (enumPairs path) j

/-- Pair e of the path resolves to a policy and passes all assertions at the
running total in force when the walk reaches it. -/
def pairOk (ctx : QueryCtx) (path : List RouteHop) (t0 : Nat)
    (e : Nat × RouteHop × RouteHop) : Prop :=
  ∃ mn mx expiry fees, findChan ctx path e.1 e.2.2 = .found mn mx expiry fees ∧
    pairChecksB mn mx expiry fees e.2.1 (totalAt path t0 e.1) = true

/-- The fields of msgs::UnsignedNodeAnnouncement the harness reads. -/
structure NodeAnnMsg where
  node_id : Nat
deriving DecidableEq

/-- The fields of msgs::UnsignedChannelAnnouncement the harness reads. -/
structure ChanAnnMsg where
  node_id_1 : Nat
  node_id_2 : Nat
  short_channel_id : Nat
deriving DecidableEq

/-- msgs::DecodeError. -/
inductive DecodeError
  | UnknownVersion
  | UnknownRequiredFeature
  | InvalidValue
  | BadLengthDescriptor
  | ShortRead
  | IoError
deriving DecidableEq

/-- Terminal outcome of a harness run. -/
inductive RunOutcome
  /-- return: the input was exhausted or an expected decode error occurred. -/
  | cleanStop
  /-- A fatal assertion, unwrap or panic fired. -/
  | panicOut
  /-- The step budget of the model ran out (the source loops unboundedly). -/
  | outOfFuel
deriving DecidableEq

/-- One externally visible operation performed by the harness: a graph
mutation call or a route query. -/
inductive TraceEv
  | nodeAnnounce (m : NodeAnnMsg)
  | chanAnnounce (checked : Bool) (m : ChanAnnMsg) (utxo : Option UtxoResult)
  | chanUpdate (m : UnsignedChannelUpdate)
  | closeChannel (scid : Nat)
  | routeQuery (src target : Nat) (first_hops : Option (List ChannelDetails))
      (last_hops : List RouteHint) (value cltv : Nat)
deriving DecidableEq

/-- Whether a trace event is a graph mutation call. -/
def TraceEv.isMutation : TraceEv → Bool
  | .routeQuery _ _ _ _ _ _ => false
  | _ => true

/-- The graph-mutation subsequence of a trace. -/
def graphMutationsOf (tr : List TraceEv) : List TraceEv :=
  tr.filter TraceEv.isMutation

/-- The route-query subsequence of a trace. -/
def routeQueriesOf (tr : List TraceEv) : List TraceEv :=
  tr.filter (fun e => !e.isMutation)

/-- Modelled from the spec: the external collaborators of section 6 (the
message codec, the pubkey parser, the graph and the router), whose code lives
outside this repository.  Each is a deterministic function; decoders return
the decoded message together with the number of bytes consumed (the final
reader position), the graph-facing functions see the history of mutation
calls made so far. -/
structure Oracles where
  decodeNodeAnn : List Nat → Except DecodeError (NodeAnnMsg × Nat)
  decodeChanAnn : List Nat → Except DecodeError (ChanAnnMsg × Nat)
  decodeChanUpd : List Nat → Except DecodeError (UnsignedChannelUpdate × Nat)
  parsePubkey : List Nat → Option Nat
  graphAcceptUpd : List TraceEv → UnsignedChannelUpdate → Bool
  getRoute : List TraceEv → TraceEv → Option (List (List RouteHop))

/-- The mutable state of the opcode loop: the cursor, the identity set (in
insertion order; iteration order is applied on top), the short-channel-id
counter, the channel-policy table, and the history of graph calls. -/
structure HarnessState where
  cursor : InputData
  node_pks : List Nat
  scid : Nat
  limits : ChannelLimits
  graph : List TraceEv
deriving DecidableEq

/-- HashSet::insert on the identity set: grows only, never reorders. -/
def insertPk (pks : List Nat) (pk : Nat) : List Nat :=
  if pk ∈ pks then pks else pks ++ [pk]

/-- The decode_msg macro: read exactly len bytes (insufficiency stops the run
cleanly), hand them to the decoder, and on success assert that the reader
position equals the length the harness computed; UnknownVersion,
UnknownRequiredFeature, InvalidValue and BadLengthDescriptor stop the run
cleanly, ShortRead and an IO error are harness bugs and panic. -/
def decodeMsgModel {α : Type} (dec : List Nat → Except DecodeError (α × Nat))
    (cur : InputData) (len : Nat) : Except RunOutcome (α × InputData) :=
  match cur.getSlice len with
  | (none, _) => .error .cleanStop
  | (some s, cur2) =>
    match dec s with
    | .ok (msg, consumed) =>
      if consumed = len then .ok (msg, cur2) else .error .panicOut
    | .error .UnknownVersion => .error .cleanStop
    | .error .UnknownRequiredFeature => .error .cleanStop
    | .error .InvalidValue => .error .cleanStop
    | .error .BadLengthDescriptor => .error .cleanStop
    | .error .ShortRead => .error .panicOut
    | .error .IoError => .error .panicOut

/-- The decode_msg_with_len16 macro: peek a 16-bit big-endian length without
advancing, then decode 2 + that length + excess bytes. -/
def decodeMsgWithLen16 {α : Type} (dec : List Nat → Except DecodeError (α × Nat))
    (cur : InputData) (excess : Nat) : Except RunOutcome (α × InputData) :=
  match cur.getSliceNonadvancing 2 with
  | (none, _) => .error .cleanStop
  | (some s, cur1) => decodeMsgModel dec cur1 (2 + slice_to_be16 s + excess)

/-- Result of one opcode handler: the external calls it made, and either a
terminal outcome or the successor state. -/
def OpResult := List TraceEv × Except RunOutcome HarnessState

/-- Opcode 0: a node announcement.  Two non-advancing peeks size the payload
and read the embedded address length, which must not exceed (37+1)*4; then
the message is decoded, its identity recorded, and the announcement forwarded
to the graph (rejection ignored). -/
def handleNodeAnnounce (orc : Oracles) (st : HarnessState) : OpResult :=
  match st.cursor.getSliceNonadvancing 2 with
  | (none, _) => ([], .error .cleanStop)
  | (some s0, _) =>
    let start_len := slice_to_be16 s0
    match st.cursor.getSliceNonadvancing (start_len + 2 + 74) with
    | (none, _) => ([], .error .cleanStop)
    | (some s1, _) =>
      let addr_len := slice_to_be16 ((s1.drop (start_len + 2 + 72)).take 2)
      if addr_len > (37 + 1) * 4 then ([], .error .cleanStop)
      else
        match decodeMsgWithLen16 orc.decodeNodeAnn st.cursor 288 with
        | .error out => ([], .error out)
        | .ok (msg, cur2) =>
          ([.nodeAnnounce msg],
           .ok { st with cursor := cur2,
                         node_pks := insertPk st.node_pks msg.node_id,
                         graph := st.graph ++ [.nodeAnnounce msg] })

/-- Opcodes 1 and 2: a channel announcement, forwarded to the graph without
(opcode 1) or with (opcode 2) chain validation; both identities are recorded.
Modelled from the spec: the graph's upsert_channel call consults the chain
oracle exactly once when validation is enabled, consuming the next two input
bytes (the graph code itself lives outside this repository). -/
def handleChanAnnounce (orc : Oracles) (checkChain : Bool) (st : HarnessState) : OpResult :=
  match decodeMsgWithLen16 orc.decodeChanAnn st.cursor (32 + 8 + 33 * 4) with
  | .error out => ([], .error out)
  | .ok (msg, cur2) =>
    let pks := insertPk (insertPk st.node_pks msg.node_id_1) msg.node_id_2
    if checkChain then
      let (utxo, cur3) := getUtxo cur2
      let ev := TraceEv.chanAnnounce true msg (some utxo)
      ([ev], .ok { st with cursor := cur3, node_pks := pks, graph := st.graph ++ [ev] })
    else
      let ev := TraceEv.chanAnnounce false msg none
      ([ev], .ok { st with cursor := cur2, node_pks := pks, graph := st.graph ++ [ev] })

/-- The update of the channel-policy table performed by opcode 3: only when
the graph accepted the update, and then keyed by the update's channel id and
the lowest bit of its flags field. -/
def applyChannelUpdate (accepted : Bool) (limits : ChannelLimits)
    (msg : UnsignedChannelUpdate) : ChannelLimits :=
  if accepted then insertLimit limits (msg.short_channel_id, msg.flags &&& 1 == 1) msg
  else limits

/-- Opcode 3: a 72-byte channel update; the graph is asked to apply it and the
policy table is updated only on acceptance. -/
def handleChanUpdate (orc : Oracles) (st : HarnessState) : OpResult :=
  match decodeMsgModel orc.decodeChanUpd st.cursor 72 with
  | .error out => ([], .error out)
  | .ok (msg, cur2) =>
    let accepted := orc.graphAcceptUpd st.graph msg
    ([.chanUpdate msg],
     .ok { st with cursor := cur2,
                   limits := applyChannelUpdate accepted st.limits msg,
                   graph := st.graph ++ [.chanUpdate msg] })

/-- The removal of both directional policy-table entries performed by a
channel close. -/
def applyClose (limits : ChannelLimits) (scid : Nat) : ChannelLimits :=
  removeLimit (removeLimit limits (scid, true)) (scid, false)

/-- Opcode 4: an 8-byte channel id; the graph is told to close the channel and
both directions leave the policy table.  The identity set is untouched. -/
def handleClose (st : HarnessState) : OpResult :=
  match st.cursor.getSlice 8 with
  | (none, _) => ([], .error .cleanStop)
  | (some s, cur2) =>
    let scid := slice_to_be64 s
    ([.closeChannel scid],
     .ok { st with cursor := cur2,
                   limits := applyClose st.limits scid,
                   graph := st.graph ++ [.closeChannel scid] })

/-- node_pks.iter().skip(index mod len).next(): the deterministic identity
pick, over the iteration order ord of the current set. -/
def pickNodeId (ord : List Nat → List Nat) (pks : List Nat) (idx16 : Nat) : Option Nat :=
  ((ord pks).drop (idx16 % pks.length)).head?

/-- The ChannelDetails entry the harness synthesizes for a first hop: the
decoded 8-byte value becomes channel_value_satoshis, while both capacity
fields are zero. -/
def mkFirstHopChannel (scid rnid capacity : Nat) : ChannelDetails :=
  { short_channel_id := some scid
    remote_network_id := rnid
    channel_value_satoshis := capacity
    inbound_capacity_msat := 0
    outbound_capacity_msat := 0 }

/-- The first-hop synthesis loop: count entries, each picking an identity from
two input bytes and decoding an 8-byte value; the scid counter increments
before every entry. -/
def buildFirstHops (ord : List Nat → List Nat) (pks : List Nat) :
    Nat → InputData → Nat → Except RunOutcome (List ChannelDetails × InputData × Nat)
  | 0, cur, scid => .ok ([], cur, scid)
  | n + 1, cur, scid =>
    let scid1 := scid + 1
    match cur.getSlice 2 with
    | (none, _) => .error .cleanStop
    | (some s2, cur1) =>
      match pickNodeId ord pks (slice_to_be16 s2) with
      | none => .error .panicOut
      | some rnid =>
        match cur1.getSlice 8 with
        | (none, _) => .error .cleanStop
        | (some s8, cur2) =>
          match buildFirstHops ord pks n cur2 scid1 with
          | .error out => .error out
          | .ok (rest, cur3, scid3) =>
            .ok (mkFirstHopChannel scid1 rnid (slice_to_be64 s8) :: rest, cur3, scid3)

/-- The last-hop hint synthesis loop: count hints, each picking an identity
from two input bytes, then base fee (4 bytes), proportional rate (4 bytes),
cltv delta (2 bytes) and htlc minimum (8 bytes); no maximum is hinted. -/
def buildLastHops (ord : List Nat → List Nat) (pks : List Nat) :
    Nat → InputData → Nat → Except RunOutcome (List RouteHint × InputData × Nat)
  | 0, cur, scid => .ok ([], cur, scid)
  | n + 1, cur, scid =>
    let scid1 := scid + 1
    match cur.getSlice 2 with
    | (none, _) => .error .cleanStop
    | (some s2, cur1) =>
      match pickNodeId ord pks (slice_to_be16 s2) with
      | none => .error .panicOut
      | some rnid =>
        match cur1.getSlice 4 with
        | (none, _) => .error .cleanStop
        | (some sBase, cur2) =>
          match cur2.getSlice 4 with
          | (none, _) => .error .cleanStop
          | (some sProp, cur3) =>
            match cur3.getSlice 2 with
            | (none, _) => .error .cleanStop
            | (some sCltv, cur4) =>
              match cur4.getSlice 8 with
              | (none, _) => .error .cleanStop
              | (some sMin, cur5) =>
                match buildLastHops ord pks n cur5 scid1 with
                | .error out => .error out
                | .ok (rest, cur6, scid6) =>
                  .ok ({ src_node_id := rnid
                         short_channel_id := scid1
                         fees := { base_msat := slice_to_be32 sBase
                                   proportional_millionths := slice_to_be32 sProp }
                         cltv_expiry_delta := slice_to_be16 sCltv
                         htlc_minimum_msat := some (slice_to_be64 sMin)
                         htlc_maximum_msat := none } :: rest, cur6, scid6)

/-- The per-target query loop: for every identity in iteration order, decode
an 8-byte amount and a 4-byte cltv budget, issue one route query, and feed a
successful result to the validator; a panicking validation is fatal, a failed
query is ignored. -/
def runTargets (orc : Oracles) (pk : Nat) (fh : Option (List ChannelDetails))
    (lh : List RouteHint) (limits : ChannelLimits) (graph : List TraceEv) :
    List Nat → InputData → List TraceEv × Except RunOutcome InputData
  | [], cur => ([], .ok cur)
  | t :: ts, cur =>
    match cur.getSlice 8 with
    | (none, _) => ([], .error .cleanStop)
    | (some s8, cur1) =>
      match cur1.getSlice 4 with
      | (none, _) => ([], .error .cleanStop)
      | (some s4, cur2) =>
        let value := slice_to_be64 s8
        let cltv := slice_to_be32 s4
        let ev := TraceEv.routeQuery pk t fh lh value cltv
        match orc.getRoute graph ev with
        | none =>
          let (evs, r) := runTargets orc pk fh lh limits graph ts cur2
          (ev :: evs, r)
        | some paths =>
          match validateRoute { first_hops := fh, last_hops := lh, limits := limits }
              paths value cltv with
          | .panicked => ([ev], .error .panicOut)
          | .ok =>
            let (evs, r) := runTargets orc pk fh lh limits graph ts cur2
            (ev :: evs, r)

/-- Any opcode not in 0..4: a no-op while the identity set is empty, otherwise
a route query: synthesize the count-prefixed first-hop list (count byte 0
means no first hops), then the count-prefixed last-hop hints, then query the
router once per identity. -/
def handleQuery (ord : List Nat → List Nat) (orc : Oracles) (pk : Nat)
    (st : HarnessState) : OpResult :=
  if st.node_pks.isEmpty then ([], .ok st)
  else
    match st.cursor.getSlice 1 with
    | (none, _) => ([], .error .cleanStop)
    | (some c1, cur1) =>
      let fhr : Except RunOutcome (Option (List ChannelDetails) × InputData × Nat) :=
        match c1.getD 0 0 with
        | 0 => .ok (none, cur1, st.scid)
        | count =>
          match buildFirstHops ord st.node_pks count cur1 st.scid with
          | .error out => .error out
          | .ok (v, c, s) => .ok (some v, c, s)
      match fhr with
      | .error out => ([], .error out)
      | .ok (first_hops, cur2, scid2) =>
        match cur2.getSlice 1 with
        | (none, _) => ([], .error .cleanStop)
        | (some cByte, cur3) =>
          match buildLastHops ord st.node_pks (cByte.getD 0 0) cur3 scid2 with
          | .error out => ([], .error out)
          | .ok (last_hops, cur4, scid4) =>
            let (evs, r) := runTargets orc pk first_hops last_hops st.limits st.graph
              (ord st.node_pks) cur4
            match r with
            | .error out => (evs, .error out)
            | .ok cur5 => (evs, .ok { st with cursor := cur5, scid := scid4 })

/-- Dispatch of one opcode byte. -/
def handleOp (ord : List Nat → List Nat) (orc : Oracles) (pk : Nat)
    (st : HarnessState) (op : Nat) : OpResult :=
  match op with
  | 0 => handleNodeAnnounce orc st
  | 1 => handleChanAnnounce orc false st
  | 2 => handleChanAnnounce orc true st
  | 3 => handleChanUpdate orc st
  | 4 => handleClose st
  | _ => handleQuery ord orc pk st

/-- The opcode loop: one opcode byte per iteration, terminal on input
exhaustion.  Fuel only bounds the number of iterations of the model; the
opcode read is checked before fuel so that an exhausted cursor always stops
cleanly. -/
def runLoop (ord : List Nat → List Nat) (orc : Oracles) (pk : Nat)
    (st : HarnessState) (fuel : Nat) : RunOutcome × List TraceEv :=
  match st.cursor.getSlice 1, fuel with
  | (none, _), _ => (.cleanStop, [])
  | (some _, _), 0 => (.outOfFuel, [])
  | (some opb, cur2), Nat.succ fuel2 =>
    match handleOp ord orc pk { st with cursor := cur2 } (opb.getD 0 0) with
    | (evs, .error out) => (out, evs)
    | (evs, .ok st2) =>
      let r := runLoop ord orc pk st2 fuel2
      (r.1, evs ++ r.2)

/-- A whole harness run on one input buffer: read and parse the 33-byte
source pubkey (insufficiency or an invalid key stops cleanly), then enter the
opcode loop with an empty identity set, scid counter 42 and empty tables. -/
def run (ord : List Nat → List Nat) (orc : Oracles) (data : List Nat) (fuel : Nat) :
    RunOutcome × List TraceEv :=
  let cur0 : InputData := { data := data, readPos := 0 }
  match cur0.getSlice 33 with
  | (none, _) => (.cleanStop, [])
  | (some s33, cur1) =>
    match orc.parsePubkey s33 with
    | none => (.cleanStop, [])
    | some pk =>
      runLoop ord orc pk
        { cursor := cur1, node_pks := [], scid := 42, limits := [], graph := [] } fuel

/-- Modelled from the spec: the iteration order of the identity set under
NonRandomHash (BuildHasherDefault over SipHasher).  The hasher keys are fixed
at compile time, so the order is a fixed function of the set contents and
ignores any per-process seed; the concrete order is abstracted as the
insertion order of the deduplicated identity list. -/
def siphashIterOrder (_seed : Nat) : List Nat → List Nat :=
  fun pks => pks

/-- A harness execution in a process whose hash-seed source is seed: with
NonRandomHash the seed never reaches the hasher. -/
def runSeeded (orc : Oracles) (seed : Nat) (data : List Nat) (fuel : Nat) :
    RunOutcome × List TraceEv :=
  run (siphashIterOrder seed) orc data fuel

/-- The recursive reading of the backward walk: every pair of the remaining
list resolves to a policy, passes the assertions at the running total, and
the total then grows by the prev-hop fee. -/
def accChecks (ctx : QueryCtx) (path : List RouteHop) :
    List (Nat × RouteHop × RouteHop) → Nat → Prop
  | [], _ => True
  | (idx, prev, hop) :: rest, t =>
    (∃ mn mx expiry fees, findChan ctx path idx hop = .found mn mx expiry fees ∧
       pairChecksB mn mx expiry fees prev t = true) ∧
    accChecks ctx path rest (t + prev.fee_msat)

/-- Every pair in the list resolves to a policy (no ambiguity, no missing
policy). -/
@[reducible] def allFoundOn (ctx : QueryCtx) (path : List RouteHop)
    (l : List (Nat × RouteHop × RouteHop)) : Prop :=
  ∀ e ∈ l, (findChan ctx path e.1 e.2.2).isFound = true

/-- A channel update fixture: channel 9, direction false, min 1, no max,
expiry 6, base fee 2, zero rate. -/
def updC1 : UnsignedChannelUpdate :=
  { short_channel_id := 9
    flags := 0
    cltv_expiry_delta := 6
    htlc_minimum_msat := 1
    htlc_maximum_msat := .Absent
    fee_base_msat := 2
    fee_proportional_millionths := 0 }

/-- Query context fixture resolving channel 9 through the policy table. -/
def ctxC1 : QueryCtx := ⟨none, [], [((9, false), updC1)]⟩

/-- Prev hop fixture charging fee 2 with cltv delta 6. -/
def prevC1 : RouteHop := ⟨7, 2, 6⟩

/-- Terminal hop fixture over channel 9. -/
def hopC1 : RouteHop := ⟨9, 10, 40⟩

/-- A two-hop path fixture. -/
def pathC1 : List RouteHop := [prevC1, hopC1]

/-- A trivial query context: no first hops, no hints, empty table. -/
def ctxC2 : QueryCtx := ⟨none, [], []⟩

/-- A one-path route fixture whose terminal fee is 3. -/
def pathsC2 : List (List RouteHop) := [[⟨1, 3, 9⟩]]

/-- A first-hop entry synthesized from decoded capacity 5000 on channel 43. -/
def fhC3 : ChannelDetails := mkFirstHopChannel 43 7 5000

/-- Query context fixture holding only that first-hop entry. -/
def ctxC3 : QueryCtx := ⟨some [fhC3], [], []⟩

/-- Hop fixture over first-hop channel 43. -/
def hopC3 : RouteHop := ⟨43, 11, 12⟩

/-- Prev hop fixture for the first-hop pair. -/
def prevC3 : RouteHop := ⟨1, 2, 3⟩

/-- A two-hop path through the synthesized first hop. -/
def pathC3 : List RouteHop := [prevC3, hopC3]

/-- Query context fixture with entries for both directions of channel 9. -/
def ctxC4 : QueryCtx := ⟨none, [], [((9, false), updC1), ((9, true), updC1)]⟩

/-- A four-hop path placing pair index 1 away from both boundaries. -/
def pathC4 : List RouteHop := [⟨1, 1, 1⟩, ⟨2, 2, 2⟩, ⟨9, 3, 3⟩, ⟨10, 4, 4⟩]

/-- An oracle instance whose decoders always report an expected error, whose
graph rejects everything and whose router never finds a route. -/
def orcEx : Oracles :=
  { decodeNodeAnn := fun _ => .error .InvalidValue
    decodeChanAnn := fun _ => .error .InvalidValue
    decodeChanUpd := fun _ => .error .InvalidValue
    parsePubkey := fun _ => none
    graphAcceptUpd := fun _ _ => false
    getRoute := fun _ _ => none }

/-- A harness state whose cursor sits past the end of its buffer. -/
def stPo : HarnessState := ⟨⟨[], 5⟩, [], 42, [], []⟩

/-- A poisoned cursor fixture. -/
def sPo : InputData := ⟨[0], 3⟩

/-- An empty policy table fixture. -/
def limitsC8 : ChannelLimits := []

/-- A state fixture with eight readable bytes for a channel close. -/
def stC9 : HarnessState := ⟨⟨[0, 0, 0, 0, 0, 0, 0, 9], 0⟩, [3, 4], 42, [], []⟩

/-- A decoder fixture that reports success after consuming a single byte. -/
def decC10 : List Nat → Except DecodeError (NodeAnnMsg × Nat) := fun _ => .ok (⟨5⟩, 1)

/-- A three-byte cursor fixture. -/
def curC10 : InputData := ⟨[1, 2, 3], 0⟩

theorem getSlice_insufficient {s : InputData} {n : Nat} (h : s.data.length < s.readPos + n) :
    s.getSlice n = (none, ⟨s.data, s.readPos + n⟩) := by
  simp only [InputData.getSlice]
  rw [if_pos h]

theorem getSlice_poisoned {s : InputData} (h : s.data.length < s.readPos) (n : Nat) :
    s.getSlice n = (none, ⟨s.data, s.readPos + n⟩) :=
  getSlice_insufficient (by omega)

/-- C5: whenever fewer bytes remain than a read or a peek requests, at any
stage of the run, the whole run stops cleanly and silently, with no panic and
no further operation: a failing read leaves the cursor past the end of the
buffer; the opcode loop started from such a cursor immediately returns a
clean stop with an empty operation trace; the chain-access oracle's failing
2-byte read reports UnknownTx while also leaving the cursor past the end (so
the loop stops cleanly at its next read); and a buffer too short for even the
initial 33-byte pubkey read makes the whole run a clean stop with no
operations at all. -/
theorem router_C5 :
    (∀ (s s2 : InputData) (n : Nat), s.getSlice n = (none, s2) →
      s2.data.length < s2.readPos) ∧
    (∀ ord orc pk (st : HarnessState) (fuel : Nat),
      st.cursor.data.length < st.cursor.readPos →
      runLoop ord orc pk st fuel = (.cleanStop, [])) ∧
    (∀ s : InputData, s.data.length < s.readPos + 2 →
      (getUtxo s).1 = .errUnknownTx ∧
      (getUtxo s).2.data.length < (getUtxo s).2.readPos) ∧
    (∀ ord orc (data : List Nat) (fuel : Nat), data.length < 33 →
      run ord orc data fuel = (.cleanStop, [])) := by
  refine ⟨?_, ?_, ?_, ?_⟩
  · intro s s2 n h
    simp only [InputData.getSlice] at h
    split at h
    · next hc =>
      cases h
      show s.data.length < s.readPos + n
      omega
    · next hc => simp at h
  · intro ord orc pk st fuel h
    unfold runLoop
    rw [getSlice_poisoned h 1]
  · intro s h
    unfold getUtxo
    rw [getSlice_insufficient h]
    exact ⟨rfl, h⟩
  · intro ord orc data fuel h
    have hs : (InputData.mk data 0).getSlice 33 = (none, ⟨data, 0 + 33⟩) :=
      getSlice_insufficient (by simpa using h)
    simp only [run, hs]

/-- C6: the cursor offset is monotonically non-decreasing (advancing reads
advance it, non-advancing peeks return the state unchanged); a successful
read returns exactly the requested number of bytes and advances the offset by
exactly that length; and a failed read leaves the cursor in a state from
which every subsequent read or peek of any length fails as well, so a partial
read is never handed to any caller. -/
theorem router_C6 :
    (∀ (s : InputData) (n : Nat), s.readPos ≤ (s.getSlice n).2.readPos) ∧
    (∀ (s : InputData) (n : Nat), (s.getSliceNonadvancing n).2 = s) ∧
    (∀ (s s2 : InputData) (n : Nat) (bytes : List Nat),
      s.getSlice n = (some bytes, s2) →
      bytes.length = n ∧ s2.readPos = s.readPos + n) ∧
    (∀ (s s2 : InputData) (n : Nat), s.getSlice n = (none, s2) →
      ∀ m : Nat, (s2.getSlice m).1 = none ∧ (s2.getSliceNonadvancing m).1 = none) := by
  refine ⟨?_, ?_, ?_, ?_⟩
  · intro s n
    simp only [InputData.getSlice]
    split <;> · show s.readPos ≤ s.readPos + n; omega
  · intro s n
    simp only [InputData.getSliceNonadvancing]
    split <;> rfl
  · intro s s2 n bytes h
    simp only [InputData.getSlice] at h
    split at h
    · simp at h
    · next hc =>
      cases h
      refine ⟨?_, rfl⟩
      simp only [List.length_take, List.length_drop]
      omega
  · intro s s2 n h
    simp only [InputData.getSlice] at h
    split at h
    · next hc =>
      cases h
      intro m
      constructor
      · rw [getSlice_poisoned (by show s.data.length < s.readPos + n; omega) m]
      · simp only [InputData.getSliceNonadvancing]
        rw [if_pos (by show s.data.length < s.readPos + n + m; omega)]
    · simp at h

/-- C7: two harness executions over identical input byte buffers perform
identical sequences of graph mutations and issue identical route queries,
whatever hash seeds their processes drew, because the NonRandomHash iteration
order of the identity set is a fixed, seed-independent function of the set
contents. -/
theorem router_C7 (orc : Oracles) (s1 s2 : Nat) (data : List Nat) (fuel : Nat) :
    runSeeded orc s1 data fuel = runSeeded orc s2 data fuel ∧
    graphMutationsOf (runSeeded orc s1 data fuel).2 =
      graphMutationsOf (runSeeded orc s2 data fuel).2 ∧
    routeQueriesOf (runSeeded orc s1 data fuel).2 =
      routeQueriesOf (runSeeded orc s2 data fuel).2 :=
  ⟨rfl, rfl, rfl⟩

/-- Witness for C5 at a concrete poisoned state and a concrete short buffer. -/
theorem router_C5_witness :
    runLoop (siphashIterOrder 0) orcEx 1 stPo 3 = (.cleanStop, []) ∧
    run (siphashIterOrder 0) orcEx [7, 7, 7] 5 = (.cleanStop, []) :=
  ⟨router_C5.2.1 (siphashIterOrder 0) orcEx 1 stPo 3 (by decide),
   router_C5.2.2.2 (siphashIterOrder 0) orcEx [7, 7, 7] 5 (by decide)⟩

/-- Witness for C6 at a concrete failed read. -/
theorem router_C6_witness :
    ((InputData.mk [0] 7).getSlice 4).1 = none ∧
    ((InputData.mk [0] 7).getSliceNonadvancing 4).1 = none :=
  router_C6.2.2.2 sPo ⟨[0], 7⟩ 4 (by decide) 4

theorem find?_filter_self (m : ChannelLimits) (k : Nat × Bool) :
    (m.filter (fun e => !decide (e.1 = k))).find? (fun e => decide (e.1 = k)) = none := by
  induction m with
  | nil => rfl
  | cons e m ih =>
    by_cases he : e.1 = k
    · rw [List.filter_cons_of_neg (by simp [he])]
      exact ih
    · rw [List.filter_cons_of_pos (by simp [he])]
      rw [List.find?_cons_of_neg _ (by simp [he])]
      exact ih

theorem find?_filter_ne (m : ChannelLimits) (k k2 : Nat × Bool) (h : k2 ≠ k) :
    (m.filter (fun e => !decide (e.1 = k))).find? (fun e => decide (e.1 = k2)) =
      m.find? (fun e => decide (e.1 = k2)) := by
  induction m with
  | nil => rfl
  | cons e m ih =>
    by_cases he : e.1 = k
    · rw [List.filter_cons_of_neg (by simp [he])]
      rw [List.find?_cons_of_neg _ (by simp [he]; exact fun hh => h hh.symm)]
      exact ih
    · rw [List.filter_cons_of_pos (by simp [he])]
      by_cases h2 : e.1 = k2
      · rw [List.find?_cons_of_pos _ (by simp [h2]), List.find?_cons_of_pos _ (by simp [h2])]
      · rw [List.find?_cons_of_neg _ (by simp [h2]), List.find?_cons_of_neg _ (by simp [h2])]
        exact ih

theorem lookupLimit_insert_self (m : ChannelLimits) (k : Nat × Bool)
    (v : UnsignedChannelUpdate) : lookupLimit (insertLimit m k v) k = some v := by
  unfold lookupLimit insertLimit
  rw [List.find?_cons_of_pos _ (by simp)]
  rfl

theorem lookupLimit_insert_ne (m : ChannelLimits) (k k2 : Nat × Bool)
    (v : UnsignedChannelUpdate) (h : k2 ≠ k) :
    lookupLimit (insertLimit m k v) k2 = lookupLimit m k2 := by
  unfold lookupLimit insertLimit
  rw [List.find?_cons_of_neg _ (by simp; exact fun hh => h hh.symm)]
  rw [find?_filter_ne _ _ _ h]

theorem lookupLimit_remove_self (m : ChannelLimits) (k : Nat × Bool) :
    lookupLimit (removeLimit m k) k = none := by
  unfold lookupLimit removeLimit
  rw [find?_filter_self]
  rfl

theorem lookupLimit_remove_ne (m : ChannelLimits) (k k2 : Nat × Bool) (h : k2 ≠ k) :
    lookupLimit (removeLimit m k) k2 = lookupLimit m k2 := by
  unfold lookupLimit removeLimit
  rw [find?_filter_ne _ _ _ h]

/-- C8: a channel-update operation touches the channel-policy table only when
the graph accepted the update: on rejection the table is completely
unchanged, and on acceptance exactly the entry keyed by the update's channel
id together with the lowest bit of its flags field is inserted or replaced,
every other key reading exactly as before. -/
theorem router_C8 (limits : ChannelLimits) (msg : UnsignedChannelUpdate) :
    (applyChannelUpdate false limits msg = limits) ∧
    (lookupLimit (applyChannelUpdate true limits msg)
      (msg.short_channel_id, msg.flags &&& 1 == 1) = some msg) ∧
    (∀ k, k ≠ (msg.short_channel_id, msg.flags &&& 1 == 1) →
      lookupLimit (applyChannelUpdate true limits msg) k = lookupLimit limits k) := by
  refine ⟨rfl, ?_, ?_⟩
  · exact lookupLimit_insert_self limits _ msg
  · intro k hk
    exact lookupLimit_insert_ne limits _ k msg hk

/-- Witness for C8: a rejected update leaves a concrete table untouched and
an accepted one leaves an unrelated key unchanged. -/
theorem router_C8_witness :
    applyChannelUpdate false limitsC8 updC1 = limitsC8 ∧
    lookupLimit (applyChannelUpdate true limitsC8 updC1) (5, true) =
      lookupLimit limitsC8 (5, true) :=
  ⟨(router_C8 limitsC8 updC1).1, (router_C8 limitsC8 updC1).2.2 (5, true) (by decide)⟩

/-- C9: a channel-close operation removes the policy-table entries for both
directions of exactly the named channel, leaves every other channel's entries
unchanged, and removes no identity from the identity set. -/
theorem router_C9 :
    (∀ (limits : ChannelLimits) (scid : Nat),
      lookupLimit (applyClose limits scid) (scid, true) = none ∧
      lookupLimit (applyClose limits scid) (scid, false) = none ∧
      ∀ c d, c ≠ scid →
        lookupLimit (applyClose limits scid) (c, d) = lookupLimit limits (c, d)) ∧
    (∀ (st : HarnessState) (evs : List TraceEv) (st2 : HarnessState),
      handleClose st = (evs, Except.ok st2) → st2.node_pks = st.node_pks) := by
  constructor
  · intro limits scid
    refine ⟨?_, ?_, ?_⟩
    · unfold applyClose
      rw [lookupLimit_remove_ne _ _ _ (by simp), lookupLimit_remove_self]
    · unfold applyClose
      rw [lookupLimit_remove_self]
    · intro c d hc
      unfold applyClose
      rw [lookupLimit_remove_ne _ _ _ (by simp [hc]), lookupLimit_remove_ne _ _ _ (by simp [hc])]
  · intro st evs st2 h
    unfold handleClose at h
    split at h
    · injection h with h1 h2
      exact Except.noConfusion h2
    · cases h
      rfl

/-- Witness for C9: closing channel 9 on a concrete table leaves key (5,
true) reading as before. -/
theorem router_C9_witness :
    lookupLimit (applyClose limitsC8 9) (5, true) = lookupLimit limitsC8 (5, true) :=
  (router_C9.1 limitsC8 9).2.2 5 true (by decide)

/-- C10: on a successful message decode the harness asserts that the decoder
consumed exactly the number of bytes the harness itself computed for the
payload: a decode that succeeds having consumed any other number of bytes
aborts the process even though no decode error was reported, and only a
decode consuming exactly that length proceeds. -/
theorem router_C10 {α : Type} (dec : List Nat → Except DecodeError (α × Nat))
    (cur cur2 : InputData) (s : List Nat) (len : Nat) (msg : α) (consumed : Nat)
    (hslice : cur.getSlice len = (some s, cur2)) (hdec : dec s = .ok (msg, consumed)) :
    (consumed ≠ len → decodeMsgModel dec cur len = .error .panicOut) ∧
    (consumed = len → decodeMsgModel dec cur len = .ok (msg, cur2)) := by
  constructor <;> intro h <;> simp only [decodeMsgModel, hslice, hdec] <;> simp [h]

/-- Witness for C10: a decoder that consumed 1 byte of a 3-byte payload makes
the harness abort. -/
theorem router_C10_witness : decodeMsgModel decC10 curC10 3 = .error .panicOut :=
  (router_C10 decC10 curC10 ⟨[1, 2, 3], 3⟩ [1, 2, 3] 3 ⟨5⟩ 1 (by decide) rfl).1 (by decide)

/-- C3 counterexample: the claim says the maximum bound used at a first-hop
pair equals the capacity value decoded from the input stream; on the entry
synthesized from decoded capacity 5000 the resolved maximum is 0, not 5000,
because the policy reads outbound_capacity_msat, which the synthesis always
sets to zero, while the decoded value lands in channel_value_satoshis. -/
theorem router_C3_counterexample :
    fhC3.channel_value_satoshis = 5000 ∧
    findChan ctxC3 pathC3 0 hopC3 ≠ .found none (some 5000) 0 ⟨0, 0⟩ ∧
    findChan ctxC3 pathC3 0 hopC3 = .found none (some 0) 0 ⟨0, 0⟩ := by
  decide

/-- C3 (amended): when the backward pair index is the first pair and a
synthesized first-hop entry matches the hop's channel identifier, the policy
used is: no minimum bound, maximum bound equal to that entry's
outbound-capacity field (which the synthesis always sets to zero, the
decoded input value being stored as the channel value), time-lock delta 0,
and zero fees. -/
theorem router_C3 (ctx : QueryCtx) (path : List RouteHop) (idx : Nat) (hop : RouteHop)
    (fh : ChannelDetails) (h : firstHopMatch ctx idx hop = some fh) :
    findChan ctx path idx hop = .found none (some fh.outbound_capacity_msat) 0 ⟨0, 0⟩ ∧
    ∀ scid rnid capacity,
      (mkFirstHopChannel scid rnid capacity).outbound_capacity_msat = 0 ∧
      (mkFirstHopChannel scid rnid capacity).channel_value_satoshis = capacity := by
  constructor
  · simp only [findChan, h]
  · intro scid rnid capacity
    exact ⟨rfl, rfl⟩

/-- Witness for C3 (amended) at the concrete synthesized entry. -/
theorem router_C3_witness :
    findChan ctxC3 pathC3 0 hopC3 = .found none (some fhC3.outbound_capacity_msat) 0 ⟨0, 0⟩ :=
  (router_C3 ctxC3 pathC3 0 hopC3 fhC3 (by decide)).1

/-- C4: when a backward hop pair is resolved through the channel-policy table
(neither first-hop nor last-hop data matched): entries for both directions
abandon verification of that path alone without a failure signal, and
processing continues with the next path; no entry for either direction aborts
the process; and a single present direction supplies the bounds, time-lock
delta and fees. -/
theorem router_C4 (ctx : QueryCtx) (path : List RouteHop) (idx : Nat)
    (prev hop : RouteHop) (rest : List (Nat × RouteHop × RouteHop)) (t : Nat)
    (h1 : firstHopMatch ctx idx hop = none) (h2 : lastHopMatch ctx path idx hop = none) :
    ((lookupLimit ctx.limits (hop.short_channel_id, false)).isSome = true →
      (lookupLimit ctx.limits (hop.short_channel_id, true)).isSome = true →
      findChan ctx path idx hop = .abandonPath ∧
      walkAux ctx path ((idx, prev, hop) :: rest) t = .abandoned) ∧
    (lookupLimit ctx.limits (hop.short_channel_id, false) = none →
      lookupLimit ctx.limits (hop.short_channel_id, true) = none →
      findChan ctx path idx hop = .noPolicy ∧
      walkAux ctx path ((idx, prev, hop) :: rest) t = .panicked) ∧
    (∀ u, lookupLimit ctx.limits (hop.short_channel_id, false) = some u →
      lookupLimit ctx.limits (hop.short_channel_id, true) = none →
      findChan ctx path idx hop =
        .found (some u.htlc_minimum_msat) (optField u.htlc_maximum_msat)
          u.cltv_expiry_delta ⟨u.fee_base_msat, u.fee_proportional_millionths⟩) ∧
    (∀ u, lookupLimit ctx.limits (hop.short_channel_id, true) = some u →
      lookupLimit ctx.limits (hop.short_channel_id, false) = none →
      findChan ctx path idx hop =
        .found (some u.htlc_minimum_msat) (optField u.htlc_maximum_msat)
          u.cltv_expiry_delta ⟨u.fee_base_msat, u.fee_proportional_millionths⟩) ∧
    (∀ (value cltv : Nat) (p : List RouteHop) (rps : List (List RouteHop)) (sent : Nat)
      (lastHop : RouteHop), p.getLast? = some lastHop →
      lastHop.cltv_expiry_delta = cltv → value ≠ 0 →
      walkPath ctx p lastHop.fee_msat = .abandoned →
      validateGo ctx value cltv (p :: rps) sent =
        validateGo ctx value cltv rps (sent + lastHop.fee_msat)) := by
  refine ⟨?_, ?_, ?_, ?_, ?_⟩
  · intro ha hb
    obtain ⟨ua, hua⟩ := Option.isSome_iff_exists.mp ha
    obtain ⟨ub, hub⟩ := Option.isSome_iff_exists.mp hb
    have hf : findChan ctx path idx hop = .abandonPath := by
      simp only [findChan, h1, h2, hua, hub]
    exact ⟨hf, by simp only [walkAux, hf]⟩
  · intro ha hb
    have hf : findChan ctx path idx hop = .noPolicy := by
      simp only [findChan, h1, h2, ha, hb]
    exact ⟨hf, by simp only [walkAux, hf]⟩
  · intro u hu hn
    simp only [findChan, h1, h2, hu, hn]
  · intro u hu hn
    simp only [findChan, h1, h2, hu, hn]
  · intro value cltv p rps sent lastHop hl hcl hv hw
    simp only [validateGo, hl, hcl, hw]
    rw [if_pos (by simp), if_neg (by simp [hv])]

/-- Witness for C4 at a mid-path pair whose channel has updates in both
directions. -/
theorem router_C4_witness :
    findChan ctxC4 pathC4 1 ⟨9, 3, 3⟩ = .abandonPath ∧
    walkAux ctxC4 pathC4 [(1, ⟨2, 2, 2⟩, ⟨9, 3, 3⟩)] 5 = .abandoned :=
  (router_C4 ctxC4 pathC4 1 ⟨2, 2, 2⟩ ⟨9, 3, 3⟩ [] 5 (by decide) (by decide)).1
    (by decide) (by decide)

theorem validateGo_cons_ok (ctx : QueryCtx) (value cltv : Nat) (p : List RouteHop)
    (rest : List (List RouteHop)) (sent : Nat)
    (h : validateGo ctx value cltv (p :: rest) sent = .ok) :
    ∃ lastHop, p.getLast? = some lastHop ∧
      validateGo ctx value cltv rest (sent + lastHop.fee_msat) = .ok := by
  simp only [validateGo] at h
  cases hl : p.getLast? with
  | none =>
    rw [hl] at h
    exact RouteOutcome.noConfusion h
  | some lastHop =>
    simp only [hl] at h
    refine ⟨lastHop, rfl, ?_⟩
    split at h
    · split at h
      · exact h
      · cases hw : walkPath ctx p lastHop.fee_msat <;> simp only [hw] at h
        · exact h
        · exact h
        · exact RouteOutcome.noConfusion h
    · exact RouteOutcome.noConfusion h

theorem sumTerminal_cons (p : List RouteHop) (rest : List (List RouteHop))
    (lastHop : RouteHop) (hl : p.getLast? = some lastHop) :
    sumTerminal (p :: rest) = lastHop.fee_msat + sumTerminal rest := by
  simp [sumTerminal, hl]

theorem validateGo_ok_sum (ctx : QueryCtx) (value cltv : Nat) :
    ∀ (paths : List (List RouteHop)) (sent : Nat),
      validateGo ctx value cltv paths sent = .ok → sent + sumTerminal paths = value := by
  intro paths
  induction paths with
  | nil =>
    intro sent h
    simp only [validateGo] at h
    split at h
    · next hb =>
      simp only [beq_iff_eq] at hb
      simp only [sumTerminal, List.map_nil, List.sum_nil]
      omega
    · exact RouteOutcome.noConfusion h
  | cons p rest ih =>
    intro sent h
    obtain ⟨lastHop, hl, hrec⟩ := validateGo_cons_ok ctx value cltv p rest sent h
    have hs := sumTerminal_cons p rest lastHop hl
    have hr := ih _ hrec
    omega

theorem validateGo_ok_nonempty (ctx : QueryCtx) (value cltv : Nat) :
    ∀ (paths : List (List RouteHop)) (sent : Nat),
      validateGo ctx value cltv paths sent = .ok → ∀ p ∈ paths, p ≠ [] := by
  intro paths
  induction paths with
  | nil =>
    intro sent _ p hp
    exact absurd hp (List.not_mem_nil p)
  | cons q rest ih =>
    intro sent h p hp
    obtain ⟨lastHop, hl, hrec⟩ := validateGo_cons_ok ctx value cltv q rest sent h
    rcases List.mem_cons.mp hp with rfl | hp2
    · intro hemp
      rw [hemp] at hl
      simp at hl
    · exact ih _ hrec p hp2

theorem validateGo_panic (ctx : QueryCtx) (value cltv : Nat) :
    ∀ (paths : List (List RouteHop)) (sent : Nat),
      sent + sumTerminal paths ≠ value → validateGo ctx value cltv paths sent = .panicked := by
  intro paths
  induction paths with
  | nil =>
    intro sent h
    have hnv : sent ≠ value := by
      simp [sumTerminal] at h
      omega
    simp only [validateGo]
    rw [if_neg (by simpa using hnv)]
  | cons p rest ih =>
    intro sent h
    simp only [validateGo]
    cases hl : p.getLast? with
    | none => simp only [hl]
    | some lastHop =>
      simp only [hl]
      have hs := sumTerminal_cons p rest lastHop hl
      have hrec : sent + lastHop.fee_msat + sumTerminal rest ≠ value := by omega
      by_cases hcl : (lastHop.cltv_expiry_delta == cltv) = true
      · rw [if_pos hcl]
        by_cases hz : (value == 0) = true
        · rw [if_pos hz]
          exact ih _ hrec
        · rw [if_neg hz]
          cases hw : walkPath ctx p lastHop.fee_msat <;> simp only [hw]
          · exact ih _ hrec
          · exact ih _ hrec
      · rw [if_neg hcl]

/-- C2: for every successful validation of a RouteResult with requested
amount V, the sum of terminal-hop fees across all paths (every path counted,
including those whose per-hop verification was skipped for a zero amount or a
direction ambiguity, since the sum is accumulated before either skip) equals
V exactly, and whenever that sum differs from V the validator aborts. -/
theorem router_C2 (ctx : QueryCtx) (paths : List (List RouteHop)) (value cltv : Nat) :
    (validateRoute ctx paths value cltv = .ok →
      sumTerminal paths = value ∧ ∀ p ∈ paths, p ≠ []) ∧
    (sumTerminal paths ≠ value → validateRoute ctx paths value cltv = .panicked) := by
  constructor
  · intro h
    have h1 := validateGo_ok_sum ctx value cltv paths 0 h
    exact ⟨by omega, validateGo_ok_nonempty ctx value cltv paths 0 h⟩
  · intro h
    exact validateGo_panic ctx value cltv paths 0 (by omega)

/-- Witness for C2: a route sending 3 against a request of 5 aborts. -/
theorem router_C2_witness : validateRoute ctxC2 pathsC2 5 9 = .panicked :=
  (router_C2 ctxC2 pathsC2 5 9).2 (by decide)

theorem walkAux_ok_iff (ctx : QueryCtx) (path : List RouteHop) :
    ∀ (l : List (Nat × RouteHop × RouteHop)) (t : Nat),
      walkAux ctx path l t = .ok ↔ accChecks ctx path l t := by
  intro l
  induction l with
  | nil =>
    intro t
    simp [walkAux, accChecks]
  | cons e rest ih =>
    obtain ⟨idx, prev, hop⟩ := e
    intro t
    cases hf : findChan ctx path idx hop with
    | found mn mx expiry fees =>
      simp only [walkAux, accChecks, hf]
      by_cases hc : pairChecksB mn mx expiry fees prev t = true
      · rw [if_pos hc]
        constructor
        · intro h
          exact ⟨⟨mn, mx, expiry, fees, rfl, hc⟩, (ih _).mp h⟩
        · rintro ⟨h1, hrest⟩
          exact (ih _).mpr hrest
      · rw [if_neg hc]
        constructor
        · intro h
          exact PathOutcome.noConfusion h
        · rintro ⟨⟨mn2, mx2, e2, f2, hfind, hc2⟩, hrest⟩
          injection hfind with a1 a2 a3 a4
          subst a1; subst a2; subst a3; subst a4
          exact absurd hc2 hc
    | abandonPath =>
      simp only [walkAux, accChecks, hf]
      constructor
      · intro h
        exact PathOutcome.noConfusion h
      · rintro ⟨⟨mn2, mx2, e2, f2, hfind, hc2⟩, hrest⟩
        exact Resolved.noConfusion hfind
    | noPolicy =>
      simp only [walkAux, accChecks, hf]
      constructor
      · intro h
        exact PathOutcome.noConfusion h
      · rintro ⟨⟨mn2, mx2, e2, f2, hfind, hc2⟩, hrest⟩
        exact Resolved.noConfusion hfind

theorem walkAux_not_abandoned (ctx : QueryCtx) (path : List RouteHop) :
    ∀ (l : List (Nat × RouteHop × RouteHop)) (t : Nat), allFoundOn ctx path l →
      walkAux ctx path l t ≠ .abandoned := by
  intro l
  induction l with
  | nil =>
    intro t _ h
    exact PathOutcome.noConfusion h
  | cons e rest ih =>
    obtain ⟨idx, prev, hop⟩ := e
    intro t hall h
    have hfd : (findChan ctx path idx hop).isFound = true :=
      hall (idx, prev, hop) (List.mem_cons_self _ _)
    cases hfc : findChan ctx path idx hop with
    | found mn mx expiry fees =>
      simp only [walkAux, hfc] at h
      by_cases hc : pairChecksB mn mx expiry fees prev t = true
      · rw [if_pos hc] at h
        exact ih (t + prev.fee_msat) (fun e2 he2 => hall e2 (List.mem_cons_of_mem _ he2)) h
      · rw [if_neg hc] at h
        exact PathOutcome.noConfusion h
    | abandonPath =>
      rw [hfc] at hfd
      simp [Resolved.isFound] at hfd
    | noPolicy =>
      simp only [walkAux, hfc] at h
      exact PathOutcome.noConfusion h

theorem walkAux_panicked_iff (ctx : QueryCtx) (path : List RouteHop)
    (l : List (Nat × RouteHop × RouteHop)) (t : Nat) (hall : allFoundOn ctx path l) :
    (walkAux ctx path l t = .panicked ↔ ¬ walkAux ctx path l t = .ok) := by
  cases hw : walkAux ctx path l t with
  | ok => simp
  | abandoned => exact absurd hw (walkAux_not_abandoned ctx path l t hall)
  | panicked => simp

theorem idxFees_append_gt (l : List (Nat × RouteHop × RouteHop))
    (e : Nat × RouteHop × RouteHop) (j : Nat) (hj : j < e.1) :
    idxFees (l ++ [e]) j = idxFees l j + e.2.1.fee_msat := by
  simp [idxFees, List.filter_append, hj]

theorem idxFees_append_self (l : List (Nat × RouteHop × RouteHop))
    (e : Nat × RouteHop × RouteHop) (hmax : ∀ a ∈ l, a.1 < e.1) :
    idxFees (l ++ [e]) e.1 = 0 := by
  have hl : l.filter (fun a => decide (e.1 < a.1)) = [] := by
    rw [List.filter_eq_nil_iff]
    intro a ha
    have := hmax a ha
    simp
    omega
  simp [idxFees, List.filter_append, hl]

theorem accChecks_reverse (ctx : QueryCtx) (path : List RouteHop) :
    ∀ (l : List (Nat × RouteHop × RouteHop)) (t0 : Nat),
      l.Pairwise (fun a b => a.1 < b.1) →
      (accChecks ctx path l.reverse t0 ↔
        ∀ e ∈ l, ∃ mn mx expiry fees,
          findChan ctx path e.1 e.2.2 = .found mn mx expiry fees ∧
          pairChecksB mn mx expiry fees e.2.1 (t0 + idxFees l e.1) = true) := by
  intro l
  induction l using List.reverseRecOn with
  | nil =>
    intro t0 _
    simp [accChecks]
  | append_singleton l e ih =>
    intro t0 hpw
    obtain ⟨idx, prev, hop⟩ := e
    rw [List.pairwise_append] at hpw
    obtain ⟨hpl, _, hlt⟩ := hpw
    have hlt2 : ∀ a ∈ l, a.1 < idx := by
      intro a ha
      have := hlt a ha (idx, prev, hop) (by simp)
      simpa using this
    have hrev : (l ++ [(idx, prev, hop)]).reverse = (idx, prev, hop) :: l.reverse := by
      simp
    rw [hrev]
    simp only [accChecks]
    rw [ih (t0 + prev.fee_msat) hpl]
    have hidx0 : idxFees (l ++ [(idx, prev, hop)]) idx = 0 :=
      idxFees_append_self l (idx, prev, hop) hlt2
    constructor
    · rintro ⟨hhead, htail⟩ a ha
      rcases List.mem_append.mp ha with hal | hae
      · obtain ⟨mn, mx, expiry, fees, hfind, hchk⟩ := htail a hal
        refine ⟨mn, mx, expiry, fees, hfind, ?_⟩
        have hidx : idxFees (l ++ [(idx, prev, hop)]) a.1 = idxFees l a.1 + prev.fee_msat :=
          idxFees_append_gt l (idx, prev, hop) a.1 (hlt2 a hal)
        rw [hidx,
          show t0 + (idxFees l a.1 + prev.fee_msat) = t0 + prev.fee_msat + idxFees l a.1 from
            by omega]
        exact hchk
      · have hae2 : a = (idx, prev, hop) := by simpa using hae
        subst hae2
        obtain ⟨mn, mx, expiry, fees, hfind, hchk⟩ := hhead
        refine ⟨mn, mx, expiry, fees, hfind, ?_⟩
        show pairChecksB mn mx expiry fees prev
          (t0 + idxFees (l ++ [(idx, prev, hop)]) idx) = true
        rw [hidx0]
        simpa using hchk
    · intro hall
      constructor
      · have hh : ∃ mn mx expiry fees,
            findChan ctx path idx hop = .found mn mx expiry fees ∧
            pairChecksB mn mx expiry fees prev
              (t0 + idxFees (l ++ [(idx, prev, hop)]) idx) = true :=
          hall (idx, prev, hop) (by simp)
        obtain ⟨mn, mx, expiry, fees, hfind, hchk⟩ := hh
        rw [hidx0] at hchk
        exact ⟨mn, mx, expiry, fees, hfind, by simpa using hchk⟩
      · intro a hal
        have hh : ∃ mn mx expiry fees,
            findChan ctx path a.1 a.2.2 = .found mn mx expiry fees ∧
            pairChecksB mn mx expiry fees a.2.1
              (t0 + idxFees (l ++ [(idx, prev, hop)]) a.1) = true :=
          hall a (List.mem_append_left _ hal)
        obtain ⟨mn, mx, expiry, fees, hfind, hchk⟩ := hh
        refine ⟨mn, mx, expiry, fees, hfind, ?_⟩
        have hidx : idxFees (l ++ [(idx, prev, hop)]) a.1 = idxFees l a.1 + prev.fee_msat :=
          idxFees_append_gt l (idx, prev, hop) a.1 (hlt2 a hal)
        rw [hidx] at hchk
        rw [show t0 + prev.fee_msat + idxFees l a.1 = t0 + (idxFees l a.1 + prev.fee_msat) from
          by omega]
        exact hchk

theorem enumPairs_pairwise (path : List RouteHop) :
    (enumPairs path).Pairwise (fun a b => a.1 < b.1) := by
  induction path with
  | nil => simp [enumPairs]
  | cons a rest ih =>
    cases rest with
    | nil => simp [enumPairs]
    | cons b r =>
      simp only [enumPairs]
      rw [List.pairwise_cons]
      constructor
      · intro x hx
        obtain ⟨y, hy, rfl⟩ := List.mem_map.mp hx
        simp
      · refine List.Pairwise.map _ ?_ ih
        intro x y hxy
        simp
        omega

/-- C1: for every backward hop pair of a path whose policy resolves (within a
walk run by the validator only for a nonzero requested amount), the walk
succeeds exactly when every pair resolves and passes all the assertions,
prev_hop.fee >= base_fee, prev_hop.fee == base_fee + floor(rate * path_total
/ 1_000_000), the bounds when present, and prev_hop.cltv delta == the
policy's delta, each evaluated at the running path_total that starts at the
terminal-hop fee t0 and accumulates each prior hop's fee backward; and when
every pair resolves, any violation makes the walk abort, never abandon. -/
theorem router_C1 (ctx : QueryCtx) (path : List RouteHop) (t0 : Nat) :
    (walkPath ctx path t0 = .ok ↔ ∀ e ∈ enumPairs path, pairOk ctx path t0 e) ∧
    (allFoundOn ctx path (enumPairs path) →
      (walkPath ctx path t0 = .panicked ↔
        ¬ ∀ e ∈ enumPairs path, pairOk ctx path t0 e)) := by
  have hok : walkPath ctx path t0 = .ok ↔ ∀ e ∈ enumPairs path, pairOk ctx path t0 e := by
    unfold walkPath
    rw [walkAux_ok_iff ctx path _ t0]
    rw [accChecks_reverse ctx path (enumPairs path) t0 (enumPairs_pairwise path)]
    exact Iff.rfl
  refine ⟨hok, ?_⟩
  intro hall
  have hallrev : allFoundOn ctx path (enumPairs path).reverse := by
    intro e he
    exact hall e (List.mem_reverse.mp he)
  have hp := walkAux_panicked_iff ctx path (enumPairs path).reverse t0 hallrev
  unfold walkPath
  rw [hp]
  exact not_congr hok

/-- Witness for C1 at a concrete fully resolved two-hop path. -/
theorem router_C1_witness :
    walkPath ctxC1 pathC1 10 = .panicked ↔
      ¬ ∀ e ∈ enumPairs pathC1, pairOk ctxC1 pathC1 10 e :=
  (router_C1 ctxC1 pathC1 10).2 (by decide)

end RouterFuzz
